import Mathlib

set_option autoImplicit false

/-!
Verification of the refrakt reactive state container.

The development shallowly embeds the core of the repository:

* `src/store.ts` — the message store: a root state cell, a reducer, and a
  middleware-composed send entry point.  Console output (from calls such as
  `console.warn` inside `updateUnknown`) is threaded explicitly through a
  `World` record, so the observable behaviour of one store is a pure state
  transformer.
* `src/middleware/fx.ts` — the managed effect runner.  Asynchronous
  generators become an inductive `Gen` whose continuations may read the
  current store state (the captured `peekState` getter); the drain loop
  `forkFx` and the wrapped `sendWithFx` are translated directly.
* `src/signals.ts` together with the signal-polyfill dependency graph
  engine it builds on.  The polyfill itself is not part of the repository
  sources, so the Watcher/tracking machinery is modelled from the spec
  (sections 3, 4.1, 4.2) as an explicit scheduler state `Sched`, while
  `effect`, `processPending`, the unsubscribe closure and `peek` are
  translated from `src/signals.ts` on top of it.
* `src/middleware/scope.ts` — the scope adapter: a memoized derivation over
  the parent store plus message tagging via `forward`.
-/

/-- One line of console output.  `warn` is `console.warn(label, payload)`
with a message payload, `warnError` is `console.warn(label, error)` with a
caught error, `log` is a plain string line (as pushed by the logging
middlewares in the tests). -/
inductive ConsoleLine (Msg : Type) where
  | warn (label : String) (payload : Msg)
  | warnError (label : String) (error : String)
  | log (line : String)
deriving DecidableEq

/-- The observable world of one store: the value of the root state cell, a
monotonic version counter for that cell, and the console output so far. -/
structure World (Model Msg : Type) where
  state : Model
  version : Nat
  console : List (ConsoleLine Msg)
deriving DecidableEq

/-- A reducer `(state, msg) => state` from `src/store.ts`.  The embedding
returns the console lines the reducer emits as an explicit second component
(`updateUnknown` calls `console.warn`); reducers that are pure in the source
return an empty list (see `pureReducer`). -/
def Reducer (Model Msg : Type) : Type :=
  Model → Msg → Model × List (ConsoleLine Msg)

/-- A send function `Send<Msg>` from `src/store.ts`, with its state and
console side effects made explicit as a `World` transformer. -/
def Send (Model Msg : Type) : Type :=
  Msg → World Model Msg → World Model Msg

/-- The middleware shape from `src/store.ts`:
`(state: Get<Model>) => (send: Send<Msg>) => Send<Msg>`. -/
def Middleware (Model Msg : Type) : Type :=
  (World Model Msg → Model) → Send Model Msg → Send Model Msg

/-- The store state getter `get = () => $state.get()` from `src/store.ts`:
a read of the root cell. -/
def storeGet {Model Msg : Type} : World Model Msg → Model :=
  fun w => w.state

/-- `baseSend` from `src/store.ts` lines 57-60: run the reducer on the
current state and the message and write the result into the root cell
(which bumps its version); any console output of the reducer is appended. -/
def baseSend {Model Msg : Type} (update : Reducer Model Msg) : Send Model Msg :=
  fun msg w =>
    let next := update w.state msg
    { state := next.1, version := w.version + 1, console := w.console ++ next.2 }

/-- The middleware application fold from `src/store.ts` lines 62-66:
`middleware.reduce((currentSend, mw) => mw(get)(currentSend), baseSend)`. -/
def composeSend {Model Msg : Type} (middleware : List (Middleware Model Msg))
    (base : Send Model Msg) : Send Model Msg :=
  middleware.foldl (fun currentSend mw => mw storeGet currentSend) base

/-- The composed send entry point of a store created by `store(...)`. -/
def storeSend {Model Msg : Type} (update : Reducer Model Msg)
    (middleware : List (Middleware Model Msg)) : Send Model Msg :=
  composeSend middleware (baseSend update)

/-- Lift a pure reducer, the shape `Reducer<Model, Msg>` declares in
`src/store.ts`, into the embedding: it emits no console output. -/
def pureReducer {Model Msg : Type} (update : Model → Msg → Model) :
    Reducer Model Msg :=
  fun s m => (update s m, [])

/-- `updateUnknown` from `src/store.ts` lines 102-109:
`console.warn("Unknown message", msg); return state`. -/
def updateUnknown {Model Msg : Type} (state : Model) (msg : Msg) :
    Model × List (ConsoleLine Msg) :=
  (state, [ConsoleLine.warn "Unknown message" msg])

/-- A logging middleware in the shape used by the ordering test in
`src/unnamed/part_000` (store - applies multiple middleware in order):
push a before line, call `next(msg)` once, push an after line. -/
def logMiddleware {Model Msg : Type} (beforeLine afterLine : String) :
    Middleware Model Msg :=
  fun _get next msg w =>
    let w1 := { w with console := w.console ++ [ConsoleLine.log beforeLine] }
    let w2 := next msg w1
    { w2 with console := w2.console ++ [ConsoleLine.log afterLine] }

/-- A reducer instrumented to make its invocation visible in the console
trace, so that the position of the reducer inside the middleware onion can
be observed in the same channel as the middleware log lines. -/
def traceReducer {Model Msg : Type} (update : Model → Msg → Model) :
    Reducer Model Msg :=
  fun s m => (update s m, [ConsoleLine.log "reducer"])

/-- An external operation on a store: calling `send(msg)` or calling
`get()`. -/
inductive StoreOp (Msg : Type) where
  | send (msg : Msg)
  | get
deriving DecidableEq

/-- Run a sequence of store operations.  `get()` reads the root cell and
mutates nothing; `send` runs the composed send chain. -/
def runOps {Model Msg : Type} (send : Send Model Msg) :
    List (StoreOp Msg) → World Model Msg → World Model Msg
  | [], w => w
  | StoreOp.send m :: rest, w => runOps send rest (send m w)
  | StoreOp.get :: rest, w => runOps send rest w

/-- The messages sent by a sequence of store operations, in order. -/
def sentMsgs {Msg : Type} : List (StoreOp Msg) → List Msg
  | [] => []
  | StoreOp.send m :: rest => m :: sentMsgs rest
  | StoreOp.get :: rest => sentMsgs rest

/-- A counter message type mirroring the reducers in the store tests: one
handled variant and one variant no reducer branch matches. -/
inductive CounterMsg where
  | increment
  | mystery
deriving DecidableEq

/-- A counter reducer whose default arm is `updateUnknown`, as in the store
tests (src/unnamed/part_000). -/
def counterUpdate : Reducer Nat CounterMsg :=
  fun s m =>
    match m with
    | CounterMsg.increment => (s + 1, [])
    | CounterMsg.mystery => updateUnknown s CounterMsg.mystery

/-- An asynchronous generator of messages (`AsyncGenerator<Msg>` in
`src/middleware/fx.ts`), as the lazy sequence of its observable steps: it
completes, raises an error, or yields a message and continues.  The
continuation takes the store state current when the generator resumes,
modelling the captured `peekState` getter the effect body may consult
between yields. -/
inductive Gen (Model Msg : Type) where
  | done
  | fail (error : String)
  | yield (msg : Msg) (rest : Model → Gen Model Msg)

/-- `forkFx` from `src/middleware/fx.ts` lines 9-20: drain the generator,
dispatching every yielded message through `send`; if the generator raises,
catch at the drain boundary and log `console.warn("Error in fx", error)`,
abandoning the rest of this drain. -/
def forkFx {Model Msg : Type} (send : Send Model Msg) :
    Gen Model Msg → World Model Msg → World Model Msg
  | Gen.done, w => w
  | Gen.fail e, w =>
      { w with console := w.console ++ [ConsoleLine.warnError "Error in fx" e] }
  | Gen.yield m rest, w =>
      let w1 := send m w
      forkFx send (rest (storeGet w1)) w1

/-- `sendWithFx` from `src/middleware/fx.ts` lines 56-62: apply the wrapped
store's send first, then invoke the effect function once for this dispatch
(passing it the untracked state getter) and fork the resulting generator,
draining it through `sendWithFx` itself.  The source recursion is unbounded
(recursive fan-out is the effect author's responsibility to bound), so the
embedding takes a fuel bound on the recursion depth. -/
def sendWithFx {Model Msg : Type} (send : Send Model Msg)
    (fxf : Model → Msg → Gen Model Msg) : Nat → Send Model Msg
  | 0 => fun _ w => w
  | fuel + 1 => fun msg w =>
      let w1 := send msg w
      forkFx (sendWithFx send fxf fuel) (fxf (storeGet w1) msg) w1

/-- A generator that yields a fixed list of messages and then either
completes (`none`) or raises the given error (`some e`). -/
def genOfList {Model Msg : Type} : List Msg → Option String → Gen Model Msg
  | [], none => Gen.done
  | [], some e => Gen.fail e
  | m :: rest, outcome => Gen.yield m (fun _ => genOfList rest outcome)

/-- Dispatch a list of messages in order through a send function. -/
def sendAll {Model Msg : Type} (send : Send Model Msg) (msgs : List Msg)
    (w : World Model Msg) : World Model Msg :=
  msgs.foldl (fun acc m => send m acc) w

/-- Messages for the managed-effect witness scenario: an async increment
request whose effect yields follow-up increments. -/
inductive FxMsg where
  | asyncIncrement
  | increment
deriving DecidableEq

/-- Reducer for the managed-effect witness scenario. -/
def fxUpdate : Reducer Nat FxMsg :=
  fun s m =>
    match m with
    | FxMsg.asyncIncrement => (s, [])
    | FxMsg.increment => (s + 1, [])

/-- Effect function for the managed-effect witness scenario: an
`asyncIncrement` dispatch yields two `increment` messages; `increment`
yields nothing. -/
def fxEffect : Nat → FxMsg → Gen Nat FxMsg
  | _, FxMsg.asyncIncrement =>
      genOfList [FxMsg.increment, FxMsg.increment] none
  | _, FxMsg.increment => genOfList [] none

/-- The memoization cell of a Derivation (`Signal.Computed`): the cached
value, together with the root-cell version it was computed at.  Modelled
from the spec: section 3 (Derivation — memoized until a read dependency
changes); the polyfill Computed is not part of the repository sources. -/
structure Memo (B : Type) where
  cache : Option (Nat × B)
deriving DecidableEq

/-- Modelled from the spec: Derivation `get()` (section 4.1): return the
memoized value when the tracked dependency has not changed since the last
evaluation, otherwise re-run the compute function and cache the result at
the current version. -/
def computedGet {Model Msg B : Type} (compute : Model → B)
    (w : World Model Msg) (m : Memo B) : B × Memo B :=
  match m.cache with
  | some (ver, x) =>
      if ver = w.version then (x, m)
      else
        let y := compute w.state
        (y, ⟨some (w.version, y)⟩)
  | none =>
      let y := compute w.state
      (y, ⟨some (w.version, y)⟩)

/-- The derived `get` of a scoped store, from `src/middleware/scope.ts`
lines 25 and 29: a Derivation computing `project(store.get())` over the
parent world. -/
def scopeGet {Model Msg B : Type} (project : Model → B)
    (w : World Model Msg) (m : Memo B) : B × Memo B :=
  computedGet (fun s => project s) w m

/-- `forward` from `src/store.ts` lines 94-100: transform a send function
so that it tags messages on the way out. -/
def forward {Model MsgA MsgB : Type} (send : Send Model MsgA)
    (tag : MsgB → MsgA) : MsgB → World Model MsgA → World Model MsgA :=
  fun msg w => send (tag msg) w

/-- The derived `send` of a scoped store, from `src/middleware/scope.ts`
line 26: `forward(store.send, tag)`. -/
def scopeSend {Model MsgA MsgB : Type} (parentSend : Send Model MsgA)
    (tag : MsgB → MsgA) : MsgB → World Model MsgA → World Model MsgA :=
  forward parentSend tag

/-- Consistency of a scoped store's memo cell with the parent world: a
cached value at the current version is the projection of the current
parent state. -/
def MemoInv {Model Msg B : Type} (project : Model → B) (w : World Model Msg)
    (m : Memo B) : Prop :=
  ∀ ver x, m.cache = some (ver, x) → ver = w.version → x = project w.state

/-- An observable scheduler event: one execution of a reaction's body (with
the dependency values it observed), or one execution of a cleanup callback
captured at a given run. -/
inductive SchedEvent (V : Type) where
  | run (reaction : Nat) (runIdx : Nat) (observed : List V)
  | cleanupRun (reaction : Nat) (runIdx : Nat)
deriving DecidableEq

/-- Modelled from the spec: the dependency-graph engine and effect
scheduler state (sections 3, 4.1, 4.2) — the signal-polyfill Watcher the
repository imports is not part of its sources.  Cells are identified by
Nat ids holding values in `cells`; the reactions created by `effect` are
identified by ids below `nReactions`, each with the dependency cell set its
body reads (`deps`), the Watcher's watched flags and pending list, the
`needsEnqueue` guard and queued-microtask flag of `src/signals.ts` lines
8-15, and per-reaction run bookkeeping: run counter, whether the body
returns a cleanup, the currently held cleanup (tagged with the run that
captured it), and the event log. -/
@[ext]
structure Sched (V : Type) where
  cells : Nat → V
  nReactions : Nat
  deps : Nat → List Nat
  watched : Nat → Bool
  pending : List Nat
  needsEnqueue : Bool
  flushQueued : Bool
  runCount : Nat → Nat
  hasCleanup : Nat → Bool
  cleanup : Nat → Option Nat
  events : List (SchedEvent V)

/-- The events appended by one evaluation of the Computed body that
`effect` installs (src/signals.ts lines 36-39): the previously captured
cleanup runs first (if any), then the body runs, observing its dependency
cell values. -/
def runEventsBlock {V : Type} (r : Nat) (s : Sched V) : List (SchedEvent V) :=
  (match s.cleanup r with
    | some n => [SchedEvent.cleanupRun r n]
    | none => []) ++
    [SchedEvent.run r (s.runCount r) ((s.deps r).map s.cells)]

/-- One evaluation of the Computed body installed by `effect`
(src/signals.ts lines 36-39): `cleanup?.(); cleanup = callback()` — run the
previous cleanup, run the body, and capture a new cleanup when the body
returns one. -/
def runReaction {V : Type} (r : Nat) (s : Sched V) : Sched V :=
  { s with
    events := s.events ++ runEventsBlock r s,
    cleanup := fun q => if q = r then
        (if s.hasCleanup r then some (s.runCount r) else none)
      else s.cleanup q,
    runCount := fun q => if q = r then s.runCount r + 1 else s.runCount q }

/-- The watched reactions newly notified by a write to cell `c`: those
depending on `c` that are not already pending.  Modelled from the spec
(section 4.2 invalidation; pending-set invariant of section 3). -/
def newlyPending {V : Type} (c : Nat) (s : Sched V) : List Nat :=
  (List.range s.nReactions).filter
    (fun r => s.watched r && decide (c ∈ s.deps r) && decide (r ∉ s.pending))

/-- Modelled from the spec: `Signal.State.set` plus Watcher notification
(section 4.2): store the value, add every newly dirty watched reaction to
the pending set once, and — via the `needsEnqueue` guard of
`src/signals.ts` lines 10-15 — queue a single deferred flush if one is not
already queued. -/
def writeCell {V : Type} (c : Nat) (v : V) (s : Sched V) : Sched V :=
  let np := newlyPending c s
  let s1 := { s with
    cells := fun c2 => if c2 = c then v else s.cells c2,
    pending := s.pending ++ np }
  if np.isEmpty then s1
  else if s.needsEnqueue then { s1 with needsEnqueue := false, flushQueued := true }
  else s1

/-- Apply a list of synchronous writes in order. -/
def applyWrites {V : Type} (ws : List (Nat × V)) (s : Sched V) : Sched V :=
  ws.foldl (fun acc p => writeCell p.1 p.2 acc) s

/-- The loop of `processPending` (src/signals.ts lines 20-22): re-evaluate
each drained pending reaction in order. -/
def runPending {V : Type} : List Nat → Sched V → Sched V
  | [], s => s
  | r :: rest, s => runPending rest (runReaction r s)

/-- `processPending` from `src/signals.ts` lines 17-25: re-arm the
`needsEnqueue` guard, drain the pending set (additions during the flush
would start a new set), re-evaluate every drained reaction, and re-arm the
watcher. -/
def processPending {V : Type} (s : Sched V) : Sched V :=
  runPending s.pending
    { s with needsEnqueue := true, flushQueued := false, pending := [] }

/-- `effect` from `src/signals.ts` lines 33-43: allocate the Computed with
a fresh reaction id, watch it, and run it once synchronously (establishing
its initial dependencies and cleanup). -/
def effect {V : Type} (depList : List Nat) (returnsCleanup : Bool)
    (s : Sched V) : Sched V :=
  let r := s.nReactions
  runReaction r
    { s with
      nReactions := r + 1,
      deps := fun q => if q = r then depList else s.deps q,
      watched := fun q => if q = r then true else s.watched q,
      hasCleanup := fun q => if q = r then returnsCleanup else s.hasCleanup q,
      cleanup := fun q => if q = r then none else s.cleanup q,
      runCount := fun q => if q = r then 0 else s.runCount q }

/-- The unsubscribe closure returned by `effect` (src/signals.ts lines
44-48): `w.unwatch(computed)` — which removes the reaction from the watched
set and the pending set (modelled from the spec, section 4.2) — then
`cleanup?.(); cleanup = undefined`. -/
def unsubscribe {V : Type} (r : Nat) (s : Sched V) : Sched V :=
  let s1 := { s with
    watched := fun q => if q = r then false else s.watched q,
    pending := s.pending.erase r }
  match s.cleanup r with
  | some n =>
      { s1 with
        events := s1.events ++ [SchedEvent.cleanupRun r n],
        cleanup := fun q => if q = r then none else s.cleanup q }
  | none => { s1 with cleanup := fun q => if q = r then none else s.cleanup q }

/-- An empty scheduler over the given initial cell values. -/
def mkSched {V : Type} (cells : Nat → V) : Sched V :=
  { cells := cells, nReactions := 0, deps := fun _ => [],
    watched := fun _ => false, pending := [], needsEnqueue := true,
    flushQueued := false, runCount := fun _ => 0,
    hasCleanup := fun _ => false, cleanup := fun _ => none, events := [] }

/-- A reaction is affected by a list of writes when it is registered,
watched, and depends on one of the written cells. -/
def affected {V : Type} (s : Sched V) (ws : List (Nat × V)) (r : Nat) : Prop :=
  r < s.nReactions ∧ s.watched r = true ∧ ∃ p ∈ ws, p.1 ∈ s.deps r

instance affectedDecidable {V : Type} (s : Sched V) (ws : List (Nat × V))
    (r : Nat) : Decidable (affected s ws r) := by
  unfold affected
  infer_instance

/-- Whether an event is a body run of reaction `r`. -/
def isRunOf {V : Type} (r : Nat) : SchedEvent V → Bool
  | SchedEvent.run q _ _ => q == r
  | SchedEvent.cleanupRun _ _ => false

/-- Whether an event is a cleanup execution of reaction `r`. -/
def isCleanupOf {V : Type} (r : Nat) : SchedEvent V → Bool
  | SchedEvent.cleanupRun q _ => q == r
  | SchedEvent.run _ _ _ => false

/-- Number of body runs of reaction `r` in an event list. -/
def countRuns {V : Type} (r : Nat) (evs : List (SchedEvent V)) : Nat :=
  evs.countP (isRunOf r)

/-- Number of cleanup executions of reaction `r` in an event list. -/
def countCleanups {V : Type} (r : Nat) (evs : List (SchedEvent V)) : Nat :=
  evs.countP (isCleanupOf r)

/-- The events appended by re-evaluating a list of reactions in order. -/
def runPendingTrace {V : Type} : List Nat → Sched V → List (SchedEvent V)
  | [], _ => []
  | r :: rest, s => runEventsBlock r s ++ runPendingTrace rest (runReaction r s)

/-- Modelled from the spec: the ambient tracking context (section 3) —
whether reads are currently tracked, and the dependency edges recorded so
far by the currently evaluating Derivation/Reaction. -/
structure TrackCtx where
  tracking : Bool
  recorded : List Nat
deriving DecidableEq

/-- Modelled from the spec: a Cell read (sections 3, 4.1): returns the
cell's value and records a dependency edge when the ambient context is
tracking. -/
def trackedRead {V : Type} (cells : Nat → V) (c : Nat) (ctx : TrackCtx) :
    V × TrackCtx :=
  (cells c,
    if ctx.tracking then { ctx with recorded := ctx.recorded ++ [c] } else ctx)

/-- Modelled from the spec: `Signal.subtle.untrack` (section 4.1): run the
thunk with dependency recording suppressed, then restore the prior tracking
flag. -/
def untrack {A : Type} (thunk : TrackCtx → A × TrackCtx) (ctx : TrackCtx) :
    A × TrackCtx :=
  let res := thunk { ctx with tracking := false }
  (res.1, { res.2 with tracking := ctx.tracking })

/-- `peek` from `src/signals.ts` line 62: `Signal.subtle.untrack(cb)`. -/
def peek {A : Type} (cb : TrackCtx → A × TrackCtx) (ctx : TrackCtx) :
    A × TrackCtx :=
  untrack cb ctx

/-- `peekState` from `src/middleware/fx.ts` line 54: `() => peek(get)`,
where `get` is the tracked read of the store's root state cell. -/
def peekState {V : Type} (cells : Nat → V) (stateCell : Nat)
    (ctx : TrackCtx) : V × TrackCtx :=
  peek (trackedRead cells stateCell) ctx

/-- C1 counterexample: for middlewares `[A, B]` the claimed visitation order
`A-before, B-before, reducer, B-after, A-after` is falsified by the store of
`src/store.ts`: the left fold `middleware.reduce` makes the last-listed
middleware outermost, so the actual trace is
`B-before, A-before, reducer, A-after, B-after` (matching the repository's
own ordering test in `src/unnamed/part_000`). -/
theorem c1_claimed_order_false :
    (storeSend (traceReducer (fun (s : Nat) (_ : Unit) => s))
        [logMiddleware "A-before" "A-after", logMiddleware "B-before" "B-after"]
        () { state := 0, version := 0, console := [] }).console ≠
      [ConsoleLine.log "A-before", ConsoleLine.log "B-before",
       ConsoleLine.log "reducer", ConsoleLine.log "B-after",
       ConsoleLine.log "A-after"] := by
  decide

/-- C1 (amended): for a store created with middleware list `[A, B]`,
dispatching a single message visits B's before-logic, then A's before-logic,
then the reducer, then A's after-logic, then B's after-logic: the
last-listed middleware is outermost and the first-listed middleware wraps
closest to the base send. -/
theorem middleware_onion_order {Model Msg : Type}
    (update : Model → Msg → Model) (a1 a2 b1 b2 : String) (msg : Msg)
    (w : World Model Msg) :
    storeSend (traceReducer update)
        [logMiddleware a1 a2, logMiddleware b1 b2] msg w =
      { state := update w.state msg, version := w.version + 1,
        console := w.console ++
          [ConsoleLine.log b1, ConsoleLine.log a1, ConsoleLine.log "reducer",
           ConsoleLine.log a2, ConsoleLine.log b2] } := by
  simp [storeSend, composeSend, logMiddleware, baseSend, traceReducer,
    List.foldl, storeGet]

/-- C2: for a store created with an empty middleware list, after any
sequence of operations the value `get()` reads is the left fold of the
reducer over the messages sent, in order; operations other than `send`
leave the store state untouched. -/
theorem store_state_is_reducer_fold {Model Msg : Type}
    (update : Model → Msg → Model) (ops : List (StoreOp Msg))
    (w : World Model Msg) :
    storeGet (runOps (storeSend (pureReducer update) []) ops w) =
      (sentMsgs ops).foldl update (storeGet w) := by
  induction ops generalizing w with
  | nil => rfl
  | cons op rest ih =>
    cases op with
    | send m =>
      have h := ih (storeSend (pureReducer update) [] m w)
      simpa [runOps, sentMsgs, storeSend, composeSend, baseSend, pureReducer,
        storeGet] using h
    | get => simpa [runOps, sentMsgs] using ih w

/-- C7: sending a message that no reducer branch matches, handled by the
`updateUnknown` default arm, leaves `store.get()` unchanged and appends
exactly one console warning identifying the message; nothing is thrown. -/
theorem unknown_message_safe {Model Msg : Type}
    (update : Reducer Model Msg) (w : World Model Msg) (m : Msg)
    (h : update w.state m = updateUnknown w.state m) :
    storeGet (storeSend update [] m w) = storeGet w ∧
      (storeSend update [] m w).console =
        w.console ++ [ConsoleLine.warn "Unknown message" m] := by
  constructor <;>
    simp [storeSend, composeSend, baseSend, storeGet, h, updateUnknown]

/-- Witness for C7 at a concrete store: the counter reducer with an
`updateUnknown` default arm, sent an unmatched message from state 0. -/
theorem unknown_message_safe_witness :
    counterUpdate (0 : Nat) CounterMsg.mystery =
        updateUnknown (0 : Nat) CounterMsg.mystery ∧
      (storeGet (storeSend counterUpdate [] CounterMsg.mystery
            ({ state := 0, version := 0, console := [] } : World Nat CounterMsg)) =
          storeGet ({ state := 0, version := 0, console := [] } : World Nat CounterMsg) ∧
        (storeSend counterUpdate [] CounterMsg.mystery
            ({ state := 0, version := 0, console := [] } : World Nat CounterMsg)).console =
          ([] : List (ConsoleLine CounterMsg)) ++
            [ConsoleLine.warn "Unknown message" CounterMsg.mystery]) :=
  ⟨rfl, unknown_message_safe counterUpdate
    ({ state := 0, version := 0, console := [] } : World Nat CounterMsg)
    CounterMsg.mystery rfl⟩

/-- Draining a generator that yields a fixed message list and completes
dispatches exactly those messages, in order, through the given send. -/
theorem forkFx_yieldList {Model Msg : Type} (send : Send Model Msg)
    (msgs : List Msg) (w : World Model Msg) :
    forkFx send (genOfList msgs none) w = sendAll send msgs w := by
  induction msgs generalizing w with
  | nil => rfl
  | cons m rest ih => simp [genOfList, forkFx, sendAll, List.foldl, ih]

/-- C3: if the generator raises after yielding some messages, the drain
catches the error at its boundary and returns a normal world: exactly one
`"Error in fx"` warning is logged, the remainder of that single drain is
abandoned, and the state changes already applied by the messages yielded
before the throw remain in effect (no rollback). -/
theorem fx_error_contained {Model Msg : Type} (send : Send Model Msg)
    (msgs : List Msg) (e : String) (w : World Model Msg) :
    forkFx send (genOfList msgs (some e)) w =
      { sendAll send msgs w with
        console := (sendAll send msgs w).console ++
          [ConsoleLine.warnError "Error in fx" e] } := by
  induction msgs generalizing w with
  | nil => rfl
  | cons m rest ih => simp [genOfList, forkFx, sendAll, List.foldl, ih]

/-- C4: for a message dispatched through the fx middleware's wrapped send,
the underlying send runs first, then the effect function is invoked exactly
once for that dispatch, on the post-reduction state; every message the
resulting generator yields is dispatched recursively through the wrapped
send itself (`sendWithFx`), so effect-yielded messages re-enter the full
pipeline, including the fx middleware. -/
theorem fx_wrapped_send_reentry {Model Msg : Type} (send : Send Model Msg)
    (fxf : Model → Msg → Gen Model Msg) (fuel : Nat) (msg : Msg)
    (w : World Model Msg) (msgs : List Msg)
    (h : fxf (storeGet (send msg w)) msg = genOfList msgs none) :
    sendWithFx send fxf (fuel + 1) msg w =
      sendAll (sendWithFx send fxf fuel) msgs (send msg w) := by
  simp [sendWithFx, h, forkFx_yieldList]

/-- Witness for C4: dispatching `asyncIncrement` through the fx-wrapped
send applies the base reducer, then drains the two yielded `increment`
messages through the wrapped send recursively (final count 2). -/
theorem fx_wrapped_send_reentry_witness :
    fxEffect
        (storeGet (baseSend fxUpdate FxMsg.asyncIncrement
          ({ state := 0, version := 0, console := [] } : World Nat FxMsg)))
        FxMsg.asyncIncrement =
      genOfList [FxMsg.increment, FxMsg.increment] none ∧
    sendWithFx (baseSend fxUpdate) fxEffect 2 FxMsg.asyncIncrement
        ({ state := 0, version := 0, console := [] } : World Nat FxMsg) =
      sendAll (sendWithFx (baseSend fxUpdate) fxEffect 1)
        [FxMsg.increment, FxMsg.increment]
        (baseSend fxUpdate FxMsg.asyncIncrement
          ({ state := 0, version := 0, console := [] } : World Nat FxMsg)) :=
  ⟨rfl, fx_wrapped_send_reentry (baseSend fxUpdate) fxEffect 1
    FxMsg.asyncIncrement
    ({ state := 0, version := 0, console := [] } : World Nat FxMsg)
    [FxMsg.increment, FxMsg.increment] rfl⟩

/-- A consistent Derivation read returns the projection of the current
parent state, whether it hits the memo cache or recomputes. -/
theorem computedGet_fst {Model Msg B : Type} (compute : Model → B)
    (w : World Model Msg) (m : Memo B)
    (hInv : ∀ ver x, m.cache = some (ver, x) → ver = w.version →
      x = compute w.state) :
    (computedGet compute w m).1 = compute w.state := by
  unfold computedGet
  cases hc : m.cache with
  | none => simp
  | some p =>
    obtain ⟨ver, x⟩ := p
    by_cases hv : ver = w.version
    · simp only [hv, if_true]
      exact hInv ver x hc hv
    · simp [hv]

/-- After a Derivation read, any cached entry carries the version of the
world it was read against. -/
theorem computedGet_cache_version {Model Msg B : Type} (compute : Model → B)
    (w : World Model Msg) (m : Memo B) (v : Nat) (y : B)
    (h : (computedGet compute w m).2.cache = some (v, y)) : v = w.version := by
  unfold computedGet at h
  cases hc : m.cache with
  | none =>
    rw [hc] at h
    simp only [Option.some.injEq, Prod.mk.injEq] at h
    exact h.1.symm
  | some p =>
    obtain ⟨ver, x⟩ := p
    rw [hc] at h
    by_cases hv : ver = w.version
    · simp only [hv, if_true] at h
      rw [hc] at h
      simp only [Option.some.injEq, Prod.mk.injEq] at h
      omega
    · simp only [hv, if_false] at h
      simp only [Option.some.injEq, Prod.mk.injEq] at h
      exact h.1.symm

/-- C6: the scoped store's `get()` always returns the projection of the
parent store's current state (its Derivation cache stays consistent); in
particular, sending a parent message that leaves the projected part of the
state unchanged leaves the scoped store's `get()` value equal before and
after the send. -/
theorem scope_get_projects {Model Msg B : Type} (project : Model → B)
    (update : Reducer Model Msg) (w : World Model Msg) (m : Memo B)
    (msg : Msg) (hInv : MemoInv project w m)
    (hUnrelated : project (update w.state msg).1 = project w.state) :
    (scopeGet project w m).1 = project w.state ∧
      MemoInv project (storeSend update [] msg w) (scopeGet project w m).2 ∧
      (scopeGet project (storeSend update [] msg w)
          (scopeGet project w m).2).1 = (scopeGet project w m).1 := by
  have hver : (storeSend update [] msg w).version = w.version + 1 := rfl
  have hstate : (storeSend update [] msg w).state = (update w.state msg).1 := rfl
  have h1 : (scopeGet project w m).1 = project w.state :=
    computedGet_fst (fun s => project s) w m hInv
  have h2 : MemoInv project (storeSend update [] msg w)
      (scopeGet project w m).2 := by
    intro ver x hx hv
    have := computedGet_cache_version (fun s => project s) w m ver x hx
    rw [hver] at hv
    omega
  refine ⟨h1, h2, ?_⟩
  have h3 : (scopeGet project (storeSend update [] msg w)
      (scopeGet project w m).2).1 = project (storeSend update [] msg w).state :=
    computedGet_fst (fun s => project s) (storeSend update [] msg w)
      (scopeGet project w m).2 h2
  rw [h3, hstate, hUnrelated, h1]

/-- Witness for C6 at the concrete scenario of the spec: parent state
`(counter, name)`, a child store scoped to the counter, and a parent
message that changes only the name. -/
theorem scope_get_projects_witness :
    MemoInv Prod.fst
        ({ state := (0, "x"), version := 0, console := [] } :
          World (Nat × String) String) (⟨none⟩ : Memo Nat) ∧
      Prod.fst ((pureReducer (fun (s : Nat × String) (n : String) => (s.1, n))
          ((0 : Nat), "x") "y").1) = Prod.fst ((0 : Nat), "x") ∧
      ((scopeGet Prod.fst
          ({ state := (0, "x"), version := 0, console := [] } :
            World (Nat × String) String) (⟨none⟩ : Memo Nat)).1 =
          Prod.fst ((0 : Nat), "x") ∧
        MemoInv Prod.fst
          (storeSend (pureReducer (fun (s : Nat × String) (n : String) => (s.1, n)))
            [] "y"
            ({ state := (0, "x"), version := 0, console := [] } :
              World (Nat × String) String))
          (scopeGet Prod.fst
            ({ state := (0, "x"), version := 0, console := [] } :
              World (Nat × String) String) (⟨none⟩ : Memo Nat)).2 ∧
        (scopeGet Prod.fst
            (storeSend (pureReducer (fun (s : Nat × String) (n : String) => (s.1, n)))
              [] "y"
              ({ state := (0, "x"), version := 0, console := [] } :
                World (Nat × String) String))
            (scopeGet Prod.fst
              ({ state := (0, "x"), version := 0, console := [] } :
                World (Nat × String) String) (⟨none⟩ : Memo Nat)).2).1 =
          (scopeGet Prod.fst
            ({ state := (0, "x"), version := 0, console := [] } :
              World (Nat × String) String) (⟨none⟩ : Memo Nat)).1) :=
  ⟨fun _ _ h => Option.noConfusion h, rfl,
    scope_get_projects Prod.fst
      (pureReducer (fun (s : Nat × String) (n : String) => (s.1, n)))
      ({ state := (0, "x"), version := 0, console := [] } :
        World (Nat × String) String)
      (⟨none⟩ : Memo Nat) "y" (fun _ _ h => Option.noConfusion h) rfl⟩

/-- C8: for a reaction whose body returns a cleanup callback, the cleanup
captured during run N executes immediately before run N+1's body begins
(the two events are adjacent in that order), and on teardown the
unsubscribe closure executes the last captured cleanup. -/
theorem cleanup_between_runs_and_on_teardown {V : Type} (s : Sched V)
    (r n : Nat) (hc : s.cleanup r = some n) (hr : s.runCount r = n + 1) :
    (runReaction r s).events = s.events ++
      [SchedEvent.cleanupRun r n,
       SchedEvent.run r (n + 1) ((s.deps r).map s.cells)] ∧
    (unsubscribe r s).events = s.events ++ [SchedEvent.cleanupRun r n] := by
  constructor
  · simp [runReaction, runEventsBlock, hc, hr]
  · simp [unsubscribe, hc]

/-- Witness for C8: a freshly created effect with a cleanup-returning body
over cell 0 holds the cleanup of run 0 and has run once. -/
theorem cleanup_between_runs_and_on_teardown_witness :
    (effect [0] true (mkSched (fun _ => (0 : Nat)))).cleanup 0 = some 0 ∧
    (effect [0] true (mkSched (fun _ => (0 : Nat)))).runCount 0 = 0 + 1 ∧
    ((runReaction 0 (effect [0] true (mkSched (fun _ => (0 : Nat))))).events =
        (effect [0] true (mkSched (fun _ => (0 : Nat)))).events ++
          [SchedEvent.cleanupRun 0 0,
           SchedEvent.run 0 (0 + 1)
             (((effect [0] true (mkSched (fun _ => (0 : Nat)))).deps 0).map
               (effect [0] true (mkSched (fun _ => (0 : Nat)))).cells)] ∧
      (unsubscribe 0 (effect [0] true (mkSched (fun _ => (0 : Nat))))).events =
        (effect [0] true (mkSched (fun _ => (0 : Nat)))).events ++
          [SchedEvent.cleanupRun 0 0]) :=
  ⟨rfl, rfl,
    cleanup_between_runs_and_on_teardown
      (effect [0] true (mkSched (fun _ => (0 : Nat)))) 0 0 rfl rfl⟩

/-- Unsubscribing a reaction that is unwatched, not pending, and holds no
cleanup leaves the scheduler state unchanged. -/
theorem unsubscribe_noop {V : Type} (t : Sched V) (r : Nat)
    (h1 : t.cleanup r = none) (h2 : r ∉ t.pending)
    (h3 : t.watched r = false) : unsubscribe r t = t := by
  unfold unsubscribe
  rw [h1]
  refine Sched.ext rfl rfl rfl ?_ ?_ rfl rfl rfl rfl ?_ rfl
  · funext q
    by_cases hq : q = r
    · subst hq
      simpa using h3.symm
    · simp [hq]
  · simpa using List.erase_of_not_mem h2
  · funext q
    by_cases hq : q = r
    · subst hq
      simpa using h1.symm
    · simp [hq]

/-- C9: the unsubscribe closure is idempotent — a second call leaves the
scheduler state (including the event log) exactly as after the first call —
and across both calls the held cleanup runs exactly once in total. -/
theorem unsubscribe_idempotent {V : Type} (s : Sched V) (r : Nat)
    (hcount : s.pending.count r ≤ 1) :
    unsubscribe r (unsubscribe r s) = unsubscribe r s ∧
    (∀ n, s.cleanup r = some n →
      countCleanups r (unsubscribe r (unsubscribe r s)).events =
        countCleanups r s.events + 1) := by
  have h1 : (unsubscribe r s).cleanup r = none := by
    cases h : s.cleanup r <;> simp [unsubscribe, h]
  have hp : (unsubscribe r s).pending = s.pending.erase r := by
    cases h : s.cleanup r <;> simp [unsubscribe, h]
  have h2 : r ∉ (unsubscribe r s).pending := by
    rw [hp]
    have hz : (s.pending.erase r).count r = 0 := by
      rw [List.count_erase_self]
      omega
    exact List.count_eq_zero.mp hz
  have h3 : (unsubscribe r s).watched r = false := by
    cases h : s.cleanup r <;> simp [unsubscribe, h]
  have hid : unsubscribe r (unsubscribe r s) = unsubscribe r s :=
    unsubscribe_noop (unsubscribe r s) r h1 h2 h3
  refine ⟨hid, fun n hn => ?_⟩
  rw [hid]
  have he : (unsubscribe r s).events =
      s.events ++ [SchedEvent.cleanupRun r n] := by
    simp [unsubscribe, hn]
  rw [he]
  simp [countCleanups, List.countP_append, isCleanupOf]

/-- Witness for C9: unsubscribing a freshly created effect twice. -/
theorem unsubscribe_idempotent_witness :
    (effect [0] true (mkSched (fun _ => (0 : Nat)))).pending.count 0 ≤ 1 ∧
    (unsubscribe 0 (unsubscribe 0 (effect [0] true (mkSched (fun _ => (0 : Nat))))) =
        unsubscribe 0 (effect [0] true (mkSched (fun _ => (0 : Nat)))) ∧
      (∀ n, (effect [0] true (mkSched (fun _ => (0 : Nat)))).cleanup 0 = some n →
        countCleanups 0
            (unsubscribe 0 (unsubscribe 0
              (effect [0] true (mkSched (fun _ => (0 : Nat)))))).events =
          countCleanups 0
              (effect [0] true (mkSched (fun _ => (0 : Nat)))).events + 1)) :=
  ⟨by decide,
    unsubscribe_idempotent (effect [0] true (mkSched (fun _ => (0 : Nat)))) 0
      (by decide)⟩

/-- A cell write changes only the written cell's value, the pending set
(appending the newly notified reactions), and the microtask flags. -/
theorem writeCell_eq {V : Type} (c : Nat) (v : V) (s : Sched V) :
    writeCell c v s = { s with
      cells := fun c2 => if c2 = c then v else s.cells c2,
      pending := s.pending ++ newlyPending c s,
      needsEnqueue := s.needsEnqueue && (newlyPending c s).isEmpty,
      flushQueued := s.flushQueued ||
        (!(newlyPending c s).isEmpty && s.needsEnqueue) } := by
  cases h1 : (newlyPending c s).isEmpty <;> cases h2 : s.needsEnqueue <;>
    simp [writeCell, h1, h2]

/-- Unfolding one write from a write sequence. -/
theorem applyWrites_cons {V : Type} (p : Nat × V) (rest : List (Nat × V))
    (s : Sched V) :
    applyWrites (p :: rest) s = applyWrites rest (writeCell p.1 p.2 s) := rfl

/-- Membership in the newly notified list of a write. -/
theorem newlyPending_mem {V : Type} (c : Nat) (s : Sched V) (r : Nat) :
    r ∈ newlyPending c s ↔
      r < s.nReactions ∧ s.watched r = true ∧ c ∈ s.deps r ∧ r ∉ s.pending := by
  simp [newlyPending, List.mem_filter, List.mem_range, Bool.and_eq_true,
    decide_eq_true_eq]
  tauto

/-- Writes do not run any reaction and do not change the dependency graph:
the event log, the reaction table and the run bookkeeping are untouched. -/
theorem applyWrites_graph {V : Type} (ws : List (Nat × V)) (s : Sched V) :
    (applyWrites ws s).events = s.events ∧
      (applyWrites ws s).deps = s.deps ∧
      (applyWrites ws s).watched = s.watched ∧
      (applyWrites ws s).nReactions = s.nReactions := by
  induction ws generalizing s with
  | nil => exact ⟨rfl, rfl, rfl, rfl⟩
  | cons p rest ih =>
    obtain ⟨i1, i2, i3, i4⟩ := ih (writeCell p.1 p.2 s)
    have e1 : (writeCell p.1 p.2 s).events = s.events := by rw [writeCell_eq]
    have e2 : (writeCell p.1 p.2 s).deps = s.deps := by rw [writeCell_eq]
    have e3 : (writeCell p.1 p.2 s).watched = s.watched := by rw [writeCell_eq]
    have e4 : (writeCell p.1 p.2 s).nReactions = s.nReactions := by
      rw [writeCell_eq]
    rw [applyWrites_cons]
    exact ⟨i1.trans e1, i2.trans e2, i3.trans e3, i4.trans e4⟩

/-- After a run of synchronous writes, a reaction is pending exactly when
it was already pending or is affected by one of the writes. -/
theorem applyWrites_pending_mem {V : Type} (ws : List (Nat × V))
    (s : Sched V) (r : Nat) :
    r ∈ (applyWrites ws s).pending ↔ r ∈ s.pending ∨ affected s ws r := by
  induction ws generalizing s with
  | nil => simp [applyWrites, affected]
  | cons p rest ih =>
    have step : r ∈ (writeCell p.1 p.2 s).pending ↔
        r ∈ s.pending ∨
          (r < s.nReactions ∧ s.watched r = true ∧ p.1 ∈ s.deps r) := by
      rw [writeCell_eq]
      simp only [List.mem_append, newlyPending_mem]
      by_cases hp : r ∈ s.pending <;> simp [hp]
    have haff : affected (writeCell p.1 p.2 s) rest r ↔ affected s rest r := by
      rw [writeCell_eq]
      simp [affected]
    rw [applyWrites_cons, ih, step, haff]
    simp only [affected, List.mem_cons]
    constructor
    · rintro ((hp | ⟨h1, h2, h3⟩) | ⟨h1, h2, q, hq, hd⟩)
      · exact Or.inl hp
      · exact Or.inr ⟨h1, h2, p, Or.inl rfl, h3⟩
      · exact Or.inr ⟨h1, h2, q, Or.inr hq, hd⟩
    · rintro (hp | ⟨h1, h2, q, (rfl | hq), hd⟩)
      · exact Or.inl (Or.inl hp)
      · exact Or.inl (Or.inr ⟨h1, h2, hd⟩)
      · exact Or.inr ⟨h1, h2, q, hq, hd⟩

/-- Writes preserve the pending-set invariant: a reaction appears at most
once no matter how many of its dependencies were written. -/
theorem applyWrites_pending_nodup {V : Type} (ws : List (Nat × V))
    (s : Sched V) (hs : s.pending.Nodup) :
    (applyWrites ws s).pending.Nodup := by
  induction ws generalizing s with
  | nil => exact hs
  | cons p rest ih =>
    rw [applyWrites_cons]
    apply ih
    have hp : (writeCell p.1 p.2 s).pending =
        s.pending ++ newlyPending p.1 s := by rw [writeCell_eq]
    rw [hp]
    refine List.nodup_append.mpr ⟨hs, ?_, ?_⟩
    · exact List.Nodup.filter _ (List.nodup_range _)
    · intro a ha hmem
      exact ((newlyPending_mem p.1 s a).mp hmem).2.2.2 ha

/-- Draining a pending list appends exactly the per-reaction event blocks. -/
theorem runPending_events {V : Type} (l : List Nat) (s : Sched V) :
    (runPending l s).events = s.events ++ runPendingTrace l s := by
  induction l generalizing s with
  | nil => simp [runPending, runPendingTrace]
  | cons r rest ih =>
    rw [runPending, runPendingTrace, ih]
    simp [runReaction]

/-- One reaction's event block contains exactly one body run, of that
reaction. -/
theorem countRuns_block {V : Type} (q r : Nat) (s : Sched V) :
    countRuns q (runEventsBlock r s) = if r = q then 1 else 0 := by
  cases h : s.cleanup r <;>
    simp [runEventsBlock, countRuns, h, List.countP_cons, List.countP_nil,
      isRunOf, beq_iff_eq]

/-- The drain trace contains as many body runs of a reaction as the drained
list contains that reaction. -/
theorem countRuns_trace {V : Type} (q : Nat) (l : List Nat) (s : Sched V) :
    countRuns q (runPendingTrace l s) = l.count q := by
  induction l generalizing s with
  | nil => simp [runPendingTrace, countRuns]
  | cons r rest ih =>
    rw [runPendingTrace]
    unfold countRuns at ih ⊢
    rw [List.countP_append]
    have hb := countRuns_block q r s
    unfold countRuns at hb
    rw [hb, ih]
    by_cases hrq : r = q
    · subst hrq
      simp [List.count_cons]
      omega
    · have hqr : ¬ (q = r) := fun h2 => hrq h2.symm
      simp [List.count_cons, hrq, hqr]

/-- Every body run recorded during a drain observed the dependency values
current at the start of the drain (reaction bodies do not write cells). -/
theorem trace_run_obs {V : Type} (l : List Nat) (s : Sched V) (q n : Nat)
    (obs : List V) (h : SchedEvent.run q n obs ∈ runPendingTrace l s) :
    obs = (s.deps q).map s.cells := by
  induction l generalizing s with
  | nil => simp [runPendingTrace] at h
  | cons r rest ih =>
    rw [runPendingTrace] at h
    rcases List.mem_append.mp h with hb | ht
    · have hcomp : q = r ∧ n = s.runCount r ∧ obs = (s.deps r).map s.cells := by
        rw [runEventsBlock] at hb
        rcases List.mem_append.mp hb with hb1 | hb2
        · cases hc : s.cleanup r <;> rw [hc] at hb1 <;> simp at hb1
        · simpa using hb2
      obtain ⟨hq, -, hobs⟩ := hcomp
      subst hq
      exact hobs
    · exact ih (runReaction r s) ht

/-- C5: synchronous writes between two microtask boundaries run no reaction
synchronously; the deferred flush then re-runs every affected reaction
exactly once — not once per write — and each such re-run observes the final
written cell values. -/
theorem batched_rerun {V : Type} (s : Sched V) (ws : List (Nat × V))
    (hq : s.pending = []) :
    (applyWrites ws s).events = s.events ∧
    ∃ added, (processPending (applyWrites ws s)).events = s.events ++ added ∧
      (∀ r, countRuns r added = if affected s ws r then 1 else 0) ∧
      (∀ q n obs, SchedEvent.run q n obs ∈ added →
        obs = (s.deps q).map (applyWrites ws s).cells) := by
  obtain ⟨hev, hdeps, hwatched, hn⟩ := applyWrites_graph ws s
  constructor
  · exact hev
  refine ⟨runPendingTrace (applyWrites ws s).pending
      { applyWrites ws s with
        needsEnqueue := true, flushQueued := false, pending := [] },
    ?_, ?_, ?_⟩
  · rw [processPending, runPending_events]
    simp [hev]
  · intro r
    rw [countRuns_trace]
    have hmem : r ∈ (applyWrites ws s).pending ↔ affected s ws r := by
      rw [applyWrites_pending_mem, hq]
      simp
    have hnd : (applyWrites ws s).pending.Nodup :=
      applyWrites_pending_nodup ws s (by rw [hq]; exact List.nodup_nil)
    by_cases ha : affected s ws r
    · rw [if_pos ha]
      exact List.count_eq_one_of_mem hnd (hmem.mpr ha)
    · rw [if_neg ha]
      exact List.count_eq_zero.mpr (fun hmem2 => ha (hmem.mp hmem2))
  · intro q n obs hin
    have hobs := trace_run_obs _ _ q n obs hin
    exact hobs.trans
      (congrArg (List.map (applyWrites ws s).cells) (congrFun hdeps q))

/-- Witness for C5: a reaction depending on cells 0 and 1, with both cells
written synchronously before the flush. -/
theorem batched_rerun_witness :
    (effect [0, 1] false (mkSched (fun _ => (0 : Nat)))).pending = [] ∧
    ((applyWrites [(0, 10), (1, 20)]
          (effect [0, 1] false (mkSched (fun _ => (0 : Nat))))).events =
        (effect [0, 1] false (mkSched (fun _ => (0 : Nat)))).events ∧
      ∃ added,
        (processPending (applyWrites [(0, 10), (1, 20)]
              (effect [0, 1] false (mkSched (fun _ => (0 : Nat)))))).events =
          (effect [0, 1] false (mkSched (fun _ => (0 : Nat)))).events ++ added ∧
        (∀ r, countRuns r added =
          if affected (effect [0, 1] false (mkSched (fun _ => (0 : Nat))))
              [(0, 10), (1, 20)] r then 1 else 0) ∧
        (∀ q n obs, SchedEvent.run q n obs ∈ added →
          obs = ((effect [0, 1] false (mkSched (fun _ => (0 : Nat)))).deps q).map
            (applyWrites [(0, 10), (1, 20)]
              (effect [0, 1] false (mkSched (fun _ => (0 : Nat))))).cells)) :=
  ⟨rfl, batched_rerun (effect [0, 1] false (mkSched (fun _ => (0 : Nat))))
    [(0, 10), (1, 20)] rfl⟩

/-- C10: the state getter the fx middleware hands to the effect function is
an untracked read: invoked from any tracking context it records no
dependency edge and restores the context exactly, while still returning the
root cell's value — whereas the store's plain tracked `get` from the same
context does record the edge on the store's state cell. -/
theorem peekState_untracked {V : Type} (cells : Nat → V) (stateCell : Nat)
    (ctx : TrackCtx) (h : ctx.tracking = true) :
    (peekState cells stateCell ctx).2 = ctx ∧
      (peekState cells stateCell ctx).1 = cells stateCell ∧
      (trackedRead cells stateCell ctx).2.recorded =
        ctx.recorded ++ [stateCell] := by
  refine ⟨?_, rfl, ?_⟩
  · simp [peekState, peek, untrack, trackedRead]
  · simp [trackedRead, h]

/-- Witness for C10: peeking at cell 0 from a tracking context records
nothing, while the tracked read records the edge. -/
theorem peekState_untracked_witness :
    (⟨true, []⟩ : TrackCtx).tracking = true ∧
    ((peekState (fun _ => (0 : Nat)) 0 (⟨true, []⟩ : TrackCtx)).2 =
        (⟨true, []⟩ : TrackCtx) ∧
      (peekState (fun _ => (0 : Nat)) 0 (⟨true, []⟩ : TrackCtx)).1 =
        (fun _ => (0 : Nat)) 0 ∧
      (trackedRead (fun _ => (0 : Nat)) 0 (⟨true, []⟩ : TrackCtx)).2.recorded =
        ([] : List Nat) ++ [0]) :=
  ⟨rfl, peekState_untracked (fun _ => (0 : Nat)) 0 (⟨true, []⟩ : TrackCtx) rfl⟩
